import Mathlib

/-!
Verification development for the well-domain ingestion scripts
(`ingestion/utils/__init__.py`, `ingestion/utils/measurements.py`,
`ingestion/edm_wells.py`, `ingestion/01-wells-and-wellbores.py`,
`ingestion/02-trajectories.py`).

Python floats are modelled as exact rationals (`ℚ`), with the three
non-finite values represented explicitly where string-to-float
conversion can produce them.  Python `None` is modelled with `Option`,
and statements that raise exceptions are modelled with `Except`.
-/

unseal Rat.add Rat.mul Rat.inv Rat.sub

deriving instance DecidableEq for Except

namespace WellIngestion

/-! ## Name cleaner (`ingestion/utils/__init__.py`, `clean_name`) -/
/-- The character class of `re.sub("[\r\n ]+", " ", s)`: carriage return,
newline, or space. -/
def isCollWS (c : Char) : Bool :=
  c == '\x0d' || c == '\x0a' || c == ' '

/-- Replace every maximal run of `[\r\n ]` characters by a single space,
as `re.sub("[\r\n ]+", " ", s)` does.  The boolean flag records whether
we are inside a run that has already emitted its space. -/
def collapseAux : Bool → List Char → List Char
  | _, [] => []
  | b, c :: cs =>
    if isCollWS c then
      if b then collapseAux true cs else ' ' :: collapseAux true cs
    else
      c :: collapseAux false cs

/-- Model of `re.sub("[\r\n ]+", " ", s)` on a character list. -/
def collapseWS (l : List Char) : List Char :=
  collapseAux false l

/-- Scanning pass of `re.sub("Wellbore|Well", "", s)`, with explicit
fuel so that the definition is structural (the fuel is always at least
the list length, and each step consumes at least one character). -/
def removeWellGo : Nat → List Char → List Char
  | 0, l => l
  | _ + 1, [] => []
  | fuel + 1, c :: cs =>
    if ("Wellbore".toList).isPrefixOf (c :: cs) then
      removeWellGo fuel ((c :: cs).drop 8)
    else if ("Well".toList).isPrefixOf (c :: cs) then
      removeWellGo fuel ((c :: cs).drop 4)
    else
      c :: removeWellGo fuel cs

/-- Model of `re.sub("Wellbore|Well", "", s)`: scan left to right; at each
position try the alternative `Wellbore` first, then `Well`; on a match
delete it and continue after the match. -/
def removeWell (l : List Char) : List Char :=
  removeWellGo l.length l

/-- Trailing-separator characters for `re.sub("[- ]+$", "", s)`. -/
def isDashSpace (c : Char) : Bool :=
  c == '-' || c == ' '

/-- Model of `re.sub("[- ]+$", "", s)`: strip the longest trailing run of
hyphens and spaces. -/
def rstripDashSpace (l : List Char) : List Char :=
  List.rdropWhile isDashSpace l

/-- Model of `clean_name` from `ingestion/utils/__init__.py`:
whitespace collapse, then removal of every `Wellbore`/`Well`
occurrence, then trailing `-`/space strip. -/
def clean_name (s : String) : String :=
  String.mk (rstripDashSpace (removeWell (collapseWS s.data)))

/-- Whether the pattern `Well` occurs somewhere in the list (and hence
a fortiori wherever `Wellbore` occurs, since `Well` is a prefix of it). -/
def hasWell : List Char → Bool
  | [] => false
  | c :: cs => ("Well".toList).isPrefixOf (c :: cs) || hasWell cs

/-- A list is in collapsed-whitespace normal form: it contains no
carriage return or newline, and no two adjacent spaces. -/
def normWS : List Char → Bool
  | [] => true
  | c :: cs =>
    !(c == '\x0d' || c == '\x0a') && !(c == ' ' && cs.head? == some ' ') && normWS cs

/-! ## Python floats

A Python float is modelled exactly: finite values as rationals, plus
the three non-finite values that `float(str)` can produce. -/
inductive PyFloat where
  | num (q : ℚ)
  | inf
  | ninf
  | nan
  deriving DecidableEq, Repr

/-- Whitespace stripped by `float(str)` (ASCII fragment). -/
def isPyStripWS (c : Char) : Bool :=
  c == ' ' || c == '\t' || c == '\n' || c == '\x0d' || c == '\x0c' || c == '\x0b'

/-- Strip leading and trailing whitespace. -/
def stripPyWS (l : List Char) : List Char :=
  ((l.dropWhile isPyStripWS).reverse.dropWhile isPyStripWS).reverse

/-- Scan a `digitpart` of a Python float literal: digits with single
underscores allowed between digits.  Returns the accumulated value, the
number of digits seen, and the unconsumed remainder.  The fuel is at
least the list length, so the scan never runs out. -/
def digitGo : Nat → Nat → Nat → List Char → (Nat × Nat × List Char)
  | 0, acc, len, l => (acc, len, l)
  | _ + 1, acc, len, [] => (acc, len, [])
  | fuel + 1, acc, len, c :: rest =>
    if c.isDigit then
      digitGo fuel (acc * 10 + (c.toNat - 48)) (len + 1) rest
    else if c == '_' then
      match rest with
      | d :: rest2 =>
        if d.isDigit then digitGo fuel (acc * 10 + (d.toNat - 48)) (len + 1) rest2
        else (acc, len, c :: rest)
      | [] => (acc, len, c :: rest)
    else (acc, len, c :: rest)

/-- Parse a `digitpart` (must start with a digit). -/
def digitPart (l : List Char) : Option (Nat × Nat × List Char) :=
  match l with
  | c :: rest => if c.isDigit then some (digitGo rest.length (c.toNat - 48) 1 rest) else none
  | [] => none

/-- Parse the numeric (non-inf/nan) body of a Python float literal:
`digitpart? ['.' digitpart?] [('e'|'E') sign? digitpart]`, requiring at
least one mantissa digit and full consumption of the input. -/
def pyNumeric? (rest : List Char) : Option ℚ :=
  let (ival, ilen, r1) :=
    match digitPart rest with
    | some (v, n, r) => (v, n, r)
    | none => (0, 0, rest)
  let (fval, flen, r2) :=
    match r1 with
    | '.' :: r =>
      match digitPart r with
      | some (v, n, r') => (v, n, r')
      | none => (0, 0, r)
    | _ => (0, 0, r1)
  if ilen + flen = 0 then none
  else
    let mant : ℚ := (ival : ℚ) + (fval : ℚ) / ((10 : ℚ) ^ flen)
    match r2 with
    | 'e' :: r3 => pyExp mant r3
    | 'E' :: r3 => pyExp mant r3
    | [] => some mant
    | _ :: _ => none
where
  /-- Parse `sign? digitpart` after the exponent marker and apply it. -/
  pyExp (mant : ℚ) (r3 : List Char) : Option ℚ :=
    let (eneg, r4) : Bool × List Char :=
      match r3 with
      | '+' :: r => (false, r)
      | '-' :: r => (true, r)
      | _ => (false, r3)
    match digitPart r4 with
    | some (ev, _, r5) =>
      if r5 = [] then
        some (if eneg then mant / ((10 : ℚ) ^ ev) else mant * ((10 : ℚ) ^ ev))
      else none
    | none => none

/-- Model of `float(str)` from Python, modelled exactly over the ASCII fragment:
strip whitespace, optional sign, then `inf`/`infinity`/`nan`
(case-insensitively) or a numeric literal; `none` models `ValueError`. -/
def pyFloat? (s : String) : Option PyFloat :=
  let l := stripPyWS s.data
  let (neg, rest) : Bool × List Char :=
    match l with
    | '+' :: r => (false, r)
    | '-' :: r => (true, r)
    | _ => (false, l)
  let low := rest.map Char.toLower
  if low = "inf".toList || low = "infinity".toList then
    some (if neg then PyFloat.ninf else PyFloat.inf)
  else if low = "nan".toList then some PyFloat.nan
  else
    match pyNumeric? rest with
    | some q => some (PyFloat.num (if neg then -q else q))
    | none => none

/-! ## Unit parser (`ingestion/utils/measurements.py`) -/
/-- The canonical distance units of the destination SDK
(`DistanceUnitEnum`). -/
inductive DistanceUnitEnum where
  | meter
  | inch
  | foot
  deriving DecidableEq, Repr

/-- The SDK's `DistanceUnit` model: a canonical unit and an optional
scale factor.  When the repository constructs `DistanceUnit` without a
`factor` argument, the SDK default applies; per the spec the default
factor is `1.0` (`02-trajectories.py` multiplies by `unit.factor` of a
`DistanceUnit` built without an explicit factor, so the default must be
numeric). -/
structure DistanceUnit where
  unit : DistanceUnitEnum
  factor : Option ℚ := some 1
  deriving DecidableEq, Repr

/-- Model of `_unit_map` from `measurements.py`: the alias table, consulted
case-sensitively. -/
def unit_map : String → Option DistanceUnitEnum
  | "m" | "meter" | "meters" => some .meter
  | "in" | "inch" | "inches" => some .inch
  | "feet" | "foot" | "ft" => some .foot
  | _ => none

/-- The regex word class `\w` (ASCII fragment). -/
def isWordChar (c : Char) : Bool :=
  c.isAlpha || c.isDigit || c == '_'

/-- The regex space class `\s` (ASCII fragment). -/
def isRegexSpace (c : Char) : Bool :=
  c == ' ' || c == '\t' || c == '\n' || c == '\x0d' || c == '\x0c' || c == '\x0b'

/-- Check that a remainder matches `\s*(?P<unit>\w+)` up to the end of
the input, returning the characters captured by the `unit` group.
Since `\s` and `\w` are disjoint, this is deterministic. -/
def matchSpaceWord (l : List Char) : Option (List Char) :=
  let r := l.dropWhile isRegexSpace
  if r ≠ [] ∧ r.all isWordChar then some r else none

/-- The candidate matches of `[0-9]+` at the front of `l`, in the
backtracking order of the regex engine (greedy: longest first), each
paired with `pre` and the unconsumed remainder. -/
def intCandidates (pre : List Char) (l : List Char) : List (List Char × List Char) :=
  let n := (l.takeWhile Char.isDigit).length
  (List.range n).map (fun k => (pre ++ l.take (n - k), l.drop (n - k)))

/-- The candidate matches of the group
`(?P<factor>[+-]?([0-9]*[.])?[0-9]+)` at the front of `s`, in the
backtracking order of the regex engine: sign consumed if present, the
`[0-9]*[.]` sub-group matched if possible (a dot can only follow the
maximal digit run), longest `[0-9]+` first. -/
def factorCandidates (s : List Char) : List (List Char × List Char) :=
  let (sign, rest1) : List Char × List Char :=
    match s with
    | '+' :: r => (['+'], r)
    | '-' :: r => (['-'], r)
    | _ => ([], s)
  let ds := rest1.takeWhile Char.isDigit
  let dotBranch :=
    match rest1.drop ds.length with
    | '.' :: rest2 => intCandidates (sign ++ ds ++ ['.']) rest2
    | _ => []
  dotBranch ++ intCandidates sign rest1

/-- Model of `_unit_regex.fullmatch`: the first split, in engine order, of the
input into an optional `factor` group, `\s*`, and a final `\w+` `unit`
group consuming the rest.  The factor-absent alternative is tried
last.  Returns the `factor` group's text (empty list iff absent) and
the `unit` group's text. -/
def regexSplit (s : List Char) : Option (List Char × List Char) :=
  (factorCandidates s ++ [([], s)]).findSome?
    (fun (p : List Char × List Char) => (matchSpaceWord p.2).map (fun w => (p.1, w)))

/-- Model of `float()` on the text matched by the `factor` group
(`sign? (digits '.')? digits`), which is always a finite decimal. -/
def decValue (l : List Char) : ℚ :=
  let (sign, rest) : ℚ × List Char :=
    match l with
    | '+' :: r => (1, r)
    | '-' :: r => (-1, r)
    | _ => (1, l)
  let ip := rest.takeWhile (fun c => c != '.')
  let digitsVal : List Char → Nat := fun l => l.foldl (fun a c => a * 10 + (c.toNat - 48)) 0
  match rest.drop ip.length with
  | '.' :: fp => sign * ((digitsVal ip : ℚ) + (digitsVal fp : ℚ) / ((10 : ℚ) ^ fp.length))
  | _ => sign * (digitsVal ip : ℚ)

/-- Model of `parse_unit` from `measurements.py`: the special-cased literals
`"mm"` and `"m rkb"` first, then the regex split followed by the
case-sensitive alias lookup; the factor defaults to `1.0` when the
group is absent. -/
def parse_unit (unit : String) : Option DistanceUnit :=
  if unit = "mm" then some { unit := .meter, factor := some (1/1000) }
  else if unit = "m rkb" then some { unit := .meter }
  else
    match regexSplit unit.data with
    | none => none
    | some (f, w) =>
      let factor : ℚ := if f = [] then 1 else decValue f
      match unit_map (String.mk w) with
      | none => none
      | some u => some { unit := u, factor := some factor }

/-! ## Distance resolver (`parse_distance`) -/
/-- The SDK's `Distance` model as constructed by `parse_distance`:
the raw numeric value and the canonical unit. -/
structure Distance where
  value : PyFloat
  unit : DistanceUnitEnum
  deriving DecidableEq, Repr

/-- The guard `parsed_unit.factor is not None and parsed_unit.factor != 1.0`. -/
def factorBad : Option ℚ → Bool
  | some q => if q = 1 then false else true
  | none => false

/-- Model of `parse_distance` from `measurements.py`. -/
def parse_distance (value unit : Option String) : Option Distance :=
  match value with
  | none => none
  | some v =>
    match unit with
    | none => none
    | some u =>
      match pyFloat? v with
      | none => none
      | some fv =>
        match parse_unit u with
        | none => none
        | some pu =>
          if factorBad pu.factor then none
          else some { value := fv, unit := pu.unit }

/-! ## Measured-depth column detection (`measured_depth`) -/
/-- The fields of a raw sequence column that `_parse`/`measured_depth`
read: `column.get("externalId", "")`, `column.get("metadata",
{}).get("unit", "")`, and `column.get("description", "")`, each
modelled as optional. -/
structure SeqColumn where
  externalId : Option String
  unit : Option String
  description : Option String
  deriving DecidableEq, Repr

/-- The SDK's `DepthIndexColumn` model as constructed by
`measured_depth`. -/
structure DepthIndexColumn where
  column_external_id : String
  unit : DistanceUnit
  type : String
  deriving DecidableEq, Repr

/-- Python `str.lower()` (ASCII fragment). -/
def pyLowerStr (s : String) : String :=
  String.mk (s.data.map Char.toLower)

/-- Model of `measured_depth` from `measurements.py`: the unit metadata is
defaulted to `""` and lowercased (via `_parse`) before `parse_unit`;
the external id is re-read unlowered for the output record, and its
lowercased form is compared against the fixed id list. -/
def measured_depth (col : SeqColumn) : Option DepthIndexColumn :=
  let unit := pyLowerStr (col.unit.getD "")
  let external_id := col.externalId.getD ""
  if pyLowerStr external_id ∈ (["md", "tdep", "depth", "dept"] : List String) then
    match parse_unit unit with
    | none => none
    | some pu =>
      some { column_external_id := external_id, unit := pu, type := "measured depth" }
  else none

/-- A concrete measured-depth column for the `claim_C4_amended`
witness. -/
def mdColumn : SeqColumn :=
  { externalId := some "MD", unit := some "m", description := none }

/-- The record `measured_depth` produces on `mdColumn`. -/
def mdDepthCol : DepthIndexColumn :=
  { column_external_id := "MD", unit := { unit := .meter, factor := some 1 },
    type := "measured depth" }

/-! ## Batch chunking (`ingestion/utils/__init__.py`, `chunks`) -/
/-- One step of `for i in range(0, len(lst), n): yield lst[i:i+n]`,
with fuel bounded below by the list length (each step drops at least
one element when `n ≥ 1`). -/
def chunksGo {α : Type} : Nat → List α → Nat → List (List α)
  | 0, _, _ => []
  | _ + 1, [], _ => []
  | fuel + 1, x :: xs, n => (x :: xs).take n :: chunksGo fuel ((x :: xs).drop n) n

/-- Model of `chunks` from `ingestion/utils/__init__.py`: successive `n`-sized
slices of the list. -/
def chunks {α : Type} (l : List α) (n : Nat) : List (List α) :=
  chunksGo l.length l n

/-! ## Trajectory mapping (`ingestion/02-trajectories.py`,
`create_trajectory_ingestion`)

The loop body reads, for each sequence row, the three values
`values[md_index]`, `values[inc_index]`, `values[azim_index]`
(the indices located by `find_index`); a raw row is therefore modelled
as that triple, each value optional. -/
/-- The three values a trajectory row provides: measured depth,
inclination, azimuth. -/
structure TrajRowIn where
  md : Option ℚ
  inc : Option ℚ
  azim : Option ℚ
  deriving DecidableEq, Repr

/-- The SDK's `TrajectoryIngestionRow`. -/
structure TrajectoryIngestionRow where
  measured_depth : ℚ
  inclination : ℚ
  azimuth : ℚ
  deriving DecidableEq, Repr

/-- The SDK's `TrajectoryIngestion`, restricted to the fields the
claims concern. -/
structure TrajectoryIngestion where
  wellbore_asset_external_id : String
  rows : List TrajectoryIngestionRow
  deriving DecidableEq, Repr

/-- Python truthiness of an optional float: `None` and `0.0` are
falsy. -/
def truthy : Option ℚ → Bool
  | none => false
  | some q => if q = 0 then false else true

/-- Python's `x % 360.0` on floats: the result takes the sign of the
divisor, i.e. `x - 360 * floor(x / 360)`. -/
def pymod360 (x : ℚ) : ℚ :=
  x - 360 * (Rat.floor (x / 360))

/-- The per-row body of the loop in `create_trajectory_ingestion`:
`md = values[md_index] * md_column.unit.factor if values[md_index] else
None`, `inc = values[inc_index]`, `azim = values[azim_index] % 360.0 if
values[azim_index] else None`; the row is skipped if any of the three
is `None`.  `f` is `md_column.unit.factor` (present on every
construction in the repository; the SDK default is `1.0`). -/
def rowMap (f : ℚ) (r : TrajRowIn) : Option TrajectoryIngestionRow :=
  let md : Option ℚ := if truthy r.md then some ((r.md.getD 0) * f) else none
  let inc : Option ℚ := r.inc
  let azim : Option ℚ := if truthy r.azim then some (pymod360 (r.azim.getD 0)) else none
  match md, inc, azim with
  | some m, some i, some a =>
    some { measured_depth := m, inclination := i, azimuth := a }
  | _, _, _ => none

/-- Model of `create_trajectory_ingestion` from `02-trajectories.py`: build the
kept rows and return `None` when none survive. -/
def create_trajectory_ingestion (wellboreExtId : String) (f : ℚ)
    (data : List TrajRowIn) : Option TrajectoryIngestion :=
  let rows := data.filterMap (rowMap f)
  if rows.isEmpty then none
  else some { wellbore_asset_external_id := wellboreExtId, rows := rows }

/-! ## Well and wellbore mappers (`ingestion/01-wells-and-wellbores.py`,
`ingestion/edm_wells.py`)

A source asset is its name, external id, parent external id, and
free-text metadata (an association map).  Statements that can raise
(`metadata[key]`, `float(...)`, use of an unassigned local) are
modelled with `Except`. -/
/-- The errors the mappers can raise per record. -/
inductive PyErr where
  | keyError (k : String)
  | valueError
  | unboundLocal (v : String)
  deriving DecidableEq, Repr

/-- A source asset as consumed by the mappers. -/
structure Asset where
  name : String
  external_id : String
  parent_external_id : Option String
  metadata : List (String × String)
  deriving DecidableEq, Repr

/-- Model of `metadata.get(key)`: first binding of `key`, if any. -/
def metaGet (m : List (String × String)) (k : String) : Option String :=
  (m.find? (fun p => p.1 == k)).map (fun p => p.2)

/-- Model of `metadata[key]`: raises `KeyError` when absent. -/
def metaGetE (m : List (String × String)) (k : String) : Except PyErr String :=
  match metaGet m k with
  | some v => Except.ok v
  | none => Except.error (PyErr.keyError k)

/-- Model of `float(s)`: raises `ValueError` when the text does not parse. -/
def pyFloatE (s : String) : Except PyErr PyFloat :=
  match pyFloat? s with
  | some v => Except.ok v
  | none => Except.error PyErr.valueError

/-- Model of `float(metadata[key])`: a required metadata field. -/
def requireFloat (m : List (String × String)) (k : String) : Except PyErr PyFloat := do
  let s ← metaGetE m k
  pyFloatE s

/-- The SDK's `AssetSource`. -/
structure AssetSource where
  asset_external_id : String
  source_name : String
  deriving DecidableEq, Repr

/-- The SDK's `Wellhead`. -/
structure Wellhead where
  x : PyFloat
  y : PyFloat
  crs : String
  deriving DecidableEq, Repr

/-- The SDK's `WellIngestion`, restricted to the fields the mappers
set. -/
structure WellIngestionRec where
  name : String
  description : Option String
  matching_id : String
  source : AssetSource
  wellhead : Wellhead
  type : Option String
  water_depth : Option Distance
  operator : Option String
  spud_date : Option String
  deriving DecidableEq, Repr

/-- The SDK's `Datum` as built by the OSDU wellbore mapper. -/
structure Datum where
  value : PyFloat
  unit : DistanceUnitEnum
  reference : String
  deriving DecidableEq, Repr

/-- The `WellboreIngestion` record as built by the OSDU mapper (its
`datum` is always the currently bound `Datum` local). -/
structure OsduWellboreIngestion where
  name : String
  description : String
  matching_id : String
  well_asset_external_id : String
  source : AssetSource
  datum : Datum
  deriving DecidableEq, Repr

/-- The `WellboreIngestion` record as built by the EDM mapper (its
`datum` comes from `parse_distance`, possibly `None`). -/
structure EdmWellboreIngestion where
  name : String
  description : String
  matching_id : String
  well_asset_external_id : String
  source : AssetSource
  datum : Option Distance
  deriving DecidableEq, Repr

/-- Model of `wellbores_by_parent_external_id[w.external_id]`: the wellbores
whose parent is the given well, in input order. -/
def wellboresOf (wellbore_assets : List Asset) (wellExtId : String) : List Asset :=
  wellbore_assets.filter (fun wb => wb.parent_external_id == some wellExtId)

/-! ### OSDU mapper (`ingest_wells_and_wellbores_osdu`) -/
/-- The body of the OSDU wellbore loop for one wellbore: compute (and
assign) `datum` only when both `VerticalMeasurement_Measured_From` and
`VerticalMeasurementType_Measured_From` are present (`float` of the
elevation may raise); then build the record with the current `datum`
binding, which raises an unbound-local error when no wellbore so far
assigned it. -/
def osduProcessWellbore (st : Option Datum) (wellExtId : String) (wb : Asset) :
    Except PyErr (Option Datum × OsduWellboreIngestion) := do
  let st' ←
    match metaGet wb.metadata "VerticalMeasurement_Measured_From",
        metaGet wb.metadata "VerticalMeasurementType_Measured_From" with
    | some elev, some ref => do
      let v ← pyFloatE elev
      Except.ok (some { value := v, unit := DistanceUnitEnum.meter, reference := ref })
    | _, _ => Except.ok st
  match st' with
  | none => Except.error (PyErr.unboundLocal "datum")
  | some d =>
    Except.ok (st',
      { name := clean_name wb.name, description := clean_name wb.name,
        matching_id := clean_name wb.external_id,
        well_asset_external_id := wellExtId,
        source := { asset_external_id := wb.external_id, source_name := "OSDU" },
        datum := d })

/-- The OSDU wellbore loop, threading the `datum` binding. -/
def osduWellboreLoop (st : Option Datum) (wellExtId : String) :
    List Asset → Except PyErr (Option Datum × List OsduWellboreIngestion)
  | [] => Except.ok (st, [])
  | wb :: rest => do
    let (st1, wbi) ← osduProcessWellbore st wellExtId wb
    let (st2, wbis) ← osduWellboreLoop st1 wellExtId rest
    Except.ok (st2, wbi :: wbis)

/-- The body of the OSDU well loop for one well: operator from the
first wellbore, required longitude/latitude, the well record, then the
wellbore loop.  (`get_water_depth` returns `None` unconditionally.) -/
def osduProcessWell (wellbore_assets : List Asset) (st : Option Datum) (w : Asset) :
    Except PyErr (Option Datum × WellIngestionRec × List OsduWellboreIngestion) := do
  let wbs := wellboresOf wellbore_assets w.external_id
  let operator :=
    match wbs.head? with
    | some fwb => metaGet fwb.metadata "CurrentOperator"
    | none => none
  let lon ← requireFloat w.metadata "Wgs84SpatialLocationX"
  let lat ← requireFloat w.metadata "Wgs84SpatialLocationY"
  let wellName := clean_name w.name
  let wi : WellIngestionRec :=
    { name := wellName, description := some wellName, matching_id := wellName,
      source := { asset_external_id := w.external_id, source_name := "OSDU" },
      wellhead := { x := lon, y := lat, crs := "EPSG:4326" },
      type := none, water_depth := none, operator := operator, spud_date := none }
  let (st', wbis) ← osduWellboreLoop st w.external_id wbs
  Except.ok (st', wi, wbis)

/-- The OSDU well loop over all wells, threading the `datum` binding
across wells (it is a function-scoped local in the source). -/
def osduGo (wellbore_assets : List Asset) (st : Option Datum) :
    List Asset → Except PyErr (List WellIngestionRec × List OsduWellboreIngestion)
  | [] => Except.ok ([], [])
  | w :: ws => do
    let (st', wi, wbis) ← osduProcessWell wellbore_assets st w
    let (wis, wbisRest) ← osduGo wellbore_assets st' ws
    Except.ok (wi :: wis, wbis ++ wbisRest)

/-- Model of `ingest_wells_and_wellbores_osdu` up to the upload calls: the two
record lists it accumulates (every well is appended, with no
deduplication). -/
def ingest_wells_and_wellbores_osdu (well_assets wellbore_assets : List Asset) :
    Except PyErr (List WellIngestionRec × List OsduWellboreIngestion) :=
  osduGo wellbore_assets none well_assets

/-! ### EDM mapper (`edm_wells.py`, `ingest_wells_and_wellbores_edm`) -/
/-- Model of `_water_depth` from `edm_wells.py`: `float(metadata.get(
"WELLHEAD_DEPTH"))` with `ValueError`/`TypeError` caught, then the unit
from `WELLHEAD_DEPTH_DSDSUNIT` through `parse_unit` with the same
factor guard as `parse_distance`. -/
def _water_depth (w : Asset) : Option Distance :=
  match metaGet w.metadata "WELLHEAD_DEPTH" with
  | none => none
  | some s =>
    match pyFloat? s with
    | none => none
    | some v =>
      match metaGet w.metadata "WELLHEAD_DEPTH_DSDSUNIT" with
      | none => none
      | some unit =>
        match parse_unit unit with
        | none => none
        | some pu =>
          if factorBad pu.factor then none
          else some { value := v, unit := pu.unit }

/-- The shape check `datetime.fromisoformat` performs on a date-only
string (`YYYY-MM-DD`); other accepted `fromisoformat` shapes are
abstracted away — only success/failure matters to the mapper, and a
failure is caught and mapped to `None`. -/
def isIsoDate (s : String) : Bool :=
  match s.data with
  | [y1, y2, y3, y4, '-', m1, m2, '-', d1, d2] =>
    y1.isDigit && y2.isDigit && y3.isDigit && y4.isDigit &&
      m1.isDigit && m2.isDigit && d1.isDigit && d2.isDigit
  | _ => false

/-- Model of `_spud_date` from `edm_wells.py`: the `SPUD_DATE` metadata value
when it parses as an ISO date, else `None` (the parse failure is
caught). -/
def _spud_date (w : Asset) : Option String :=
  match metaGet w.metadata "SPUD_DATE" with
  | some s => if isIsoDate s then some s else none
  | none => none

/-- Model of `datum_dict = {x.external_id: x for x in datums}` followed by
lookup: the last asset with the given external id wins. -/
def datumDictGet (datums : List Asset) (k : String) : Option Asset :=
  (datums.filter (fun d => d.external_id == k)).getLast?

/-- The body of the EDM well loop for one well (record construction
and the per-well wellbore records; the dedup test is applied by the
caller after this body runs, as in the source, where the required
longitude/latitude lookups happen before the dedup test). -/
def edmProcessWell (datums wellbore_assets : List Asset) (w : Asset) :
    Except PyErr (WellIngestionRec × List EdmWellboreIngestion) := do
  let wbs := wellboresOf wellbore_assets w.external_id
  let operator := metaGet w.metadata "WELL_OPERATOR"
  let lon ← requireFloat w.metadata "GEO_LONGITUDE"
  let lat ← requireFloat w.metadata "GEO_LATITUDE"
  let description := metaGet w.metadata "WELL_DESC"
  let wellName := clean_name w.name
  let wi : WellIngestionRec :=
    { name := wellName, description := description, matching_id := wellName,
      source := { asset_external_id := w.external_id, source_name := "EDM" },
      wellhead := { x := lon, y := lat, crs := "EPSG:4326" },
      type := none, water_depth := _water_depth w, operator := operator,
      spud_date := _spud_date w }
  let wbis := wbs.map (fun wb =>
    let datum :=
      match metaGet wb.metadata "DRILLING_DATUM_ID_EDM" with
      | none => none
      | some dk =>
        match datumDictGet datums (dk ++ "||EDMDF") with
        | none => none
        | some da =>
          parse_distance (metaGet da.metadata "DATUM_ELEVATION")
            (metaGet da.metadata "DATUM_ELEVATION_DSDUNIT")
    { name := clean_name wb.name, description := clean_name wb.name,
      matching_id := clean_name wb.external_id,
      well_asset_external_id := w.external_id,
      source := { asset_external_id := wb.external_id, source_name := "EDM" },
      datum := datum })
  Except.ok (wi, wbis)

/-- The EDM well loop with the `well_matching_ids` seen-set: a well
whose `matching_id` was already seen is dropped together with its
wellbores (`continue` fires after the record is built, so the required
lookups still run). -/
def edmGo (datums wellbore_assets : List Asset) (seen : List String) :
    List Asset → Except PyErr (List WellIngestionRec × List EdmWellboreIngestion)
  | [] => Except.ok ([], [])
  | w :: ws => do
    let (wi, wbis) ← edmProcessWell datums wellbore_assets w
    if wi.matching_id ∈ seen then
      edmGo datums wellbore_assets seen ws
    else do
      let (wis, wbisRest) ← edmGo datums wellbore_assets (wi.matching_id :: seen) ws
      Except.ok (wi :: wis, wbis ++ wbisRest)

/-- Model of `ingest_wells_and_wellbores_edm` up to the upload calls. -/
def ingest_wells_and_wellbores_edm (wells wellbore_assets datums : List Asset) :
    Except PyErr (List WellIngestionRec × List EdmWellboreIngestion) :=
  edmGo datums wellbore_assets [] wells

/-- An OSDU well asset named `A` with the required coordinates. -/
def osduWellW1 : Asset :=
  { name := "A", external_id := "W1", parent_external_id := none,
    metadata := [("Wgs84SpatialLocationX", "1.0"), ("Wgs84SpatialLocationY", "2.0")] }

/-- A second OSDU well asset, also named `A`. -/
def osduWellW2 : Asset :=
  { name := "A", external_id := "W2", parent_external_id := none,
    metadata := [("Wgs84SpatialLocationX", "3.0"), ("Wgs84SpatialLocationY", "4.0")] }

/-- An EDM well asset named `A` with the required coordinates. -/
def edmWellE1 : Asset :=
  { name := "A", external_id := "E1", parent_external_id := none,
    metadata := [("GEO_LONGITUDE", "1.0"), ("GEO_LATITUDE", "2.0")] }

/-- A second EDM well asset, also named `A`. -/
def edmWellE2 : Asset :=
  { name := "A", external_id := "E2", parent_external_id := none,
    metadata := [("GEO_LONGITUDE", "3.0"), ("GEO_LATITUDE", "4.0")] }

/-- The single well record the EDM mapper emits on
`[edmWellE1, edmWellE2]`. -/
def edmDupOut : List WellIngestionRec :=
  [{ name := "A", description := none, matching_id := "A",
     source := { asset_external_id := "E1", source_name := "EDM" },
     wellhead := { x := PyFloat.num 1, y := PyFloat.num 2, crs := "EPSG:4326" },
     type := none, water_depth := none, operator := none, spud_date := none }]

/-- An OSDU wellbore of `osduWellW1` with no metadata at all — in
particular neither datum key. -/
def osduWbNoDatum : Asset :=
  { name := "A-1", external_id := "WB1", parent_external_id := some "W1", metadata := [] }

/-- An EDM wellbore of `edmWellE1` with no metadata at all. -/
def edmWbNoKeys : Asset :=
  { name := "A-1", external_id := "EB1", parent_external_id := some "E1", metadata := [] }

/-- A sample datum for the `claim_C10` witness. -/
def sampleDatum : Datum :=
  { value := PyFloat.num 5, unit := DistanceUnitEnum.meter, reference := "KB" }

theorem isPrefixOf_well_of_wellbore {l : List Char}
    (h : ("Wellbore".toList).isPrefixOf l = true) :
    ("Well".toList).isPrefixOf l = true := by
  rw [ List.isPrefixOf_iff_prefix] at h ⊢
  exact List.IsPrefix.trans (by decide) h

theorem removeWellGo_eq_self :
    ∀ (fuel : Nat) (l : List Char), hasWell l = false → removeWellGo fuel l = l := by
  intro fuel
  induction fuel with
  | zero => intro l _; rfl
  | succ n ih =>
    intro l hl
    cases l with
    | nil => rfl
    | cons c cs =>
      rw [hasWell] at hl
      simp only [Bool.or_eq_false_iff] at hl
      rw [removeWellGo]
      rw [if_neg (fun h => by rw [isPrefixOf_well_of_wellbore h] at hl; exact absurd hl.1 (by simp)),
        if_neg (fun h => by rw [h] at hl; exact absurd hl.1 (by simp))]
      rw [ih cs hl.2]

theorem removeWell_eq_self {l : List Char} (h : hasWell l = false) : removeWell l = l :=
  removeWellGo_eq_self l.length l h

theorem hasWell_append {l t : List Char} (h : hasWell l = true) :
    hasWell (l ++ t) = true := by
  induction l with
  | nil => exact absurd h (by simp [hasWell])
  | cons c cs ih =>
    rw [hasWell] at h
    rw [List.cons_append, hasWell]
    rcases Bool.or_eq_true_iff.mp h with h1 | h2
    · have h2' : ("Well".toList) <+: c :: (cs ++ t) := by
        rw [← List.cons_append]
        exact List.IsPrefix.trans ( List.isPrefixOf_iff_prefix.mp h1)
          (List.prefix_append (c :: cs) t)
      rw [ List.isPrefixOf_iff_prefix.mpr h2']
      simp
    · rw [ih h2]; simp

theorem hasWell_of_isPrefix {l₁ l₂ : List Char} (hp : l₁ <+: l₂)
    (h : hasWell l₂ = false) : hasWell l₁ = false := by
  rcases hp with ⟨t, rfl⟩
  by_contra hne
  rw [hasWell_append (Bool.of_not_eq_false hne)] at h
  exact absurd h (by simp)

theorem head_collapseAux_true {l : List Char} {c : Char}
    (h : (collapseAux true l).head? = some c) : isCollWS c = false := by
  induction l with
  | nil => exact absurd h (by simp [collapseAux])
  | cons d ds ih =>
    rw [collapseAux] at h
    by_cases hd : isCollWS d = true
    · rw [if_pos hd] at h; exact ih h
    · rw [if_neg hd] at h
      simp only [List.head?_cons, Option.some_inj] at h
      rw [← h]
      exact Bool.of_not_eq_true hd

theorem normWS_collapseAux : ∀ (l : List Char) (b : Bool), normWS (collapseAux b l) = true := by
  intro l
  induction l with
  | nil => intro b; rfl
  | cons c cs ih =>
    intro b
    rw [collapseAux]
    by_cases hc : isCollWS c = true
    · rw [if_pos hc]
      cases b with
      | true => rw [if_pos rfl]; exact ih true
      | false =>
        rw [if_neg (by simp)]
        rw [normWS]
        refine Bool.and_eq_true_iff.mpr ⟨Bool.and_eq_true_iff.mpr ⟨by decide, ?_⟩, ih true⟩
        cases hh : (collapseAux true cs).head? with
        | none => simp [hh]
        | some d =>
          have := head_collapseAux_true hh
          simp only [hh, Bool.not_eq_true']
          cases hde : (d == ' ') with
          | false => simp [hde]
          | true =>
            rw [beq_iff_eq] at hde
            rw [hde] at this
            exact absurd this (by decide)
    · rw [if_neg hc]
      rw [normWS]
      have hc' : isCollWS c = false := Bool.of_not_eq_true hc
      rw [isCollWS] at hc'
      simp only [Bool.or_eq_false_iff] at hc'
      refine Bool.and_eq_true_iff.mpr ⟨Bool.and_eq_true_iff.mpr ⟨?_, ?_⟩, ih false⟩
      · simp [hc'.1.1, hc'.1.2]
      · simp [hc'.2]

theorem collapseAux_fix :
    ∀ (l : List Char), normWS l = true →
      collapseAux false l = l ∧ (l.head? ≠ some ' ' → collapseAux true l = l) := by
  intro l
  induction l with
  | nil => intro _; exact ⟨rfl, fun _ => rfl⟩
  | cons c cs ih =>
    intro h
    rw [normWS] at h
    simp only [Bool.and_eq_true_iff, Bool.not_eq_true', Bool.or_eq_false_iff, beq_eq_false_iff_ne,
      Bool.and_eq_false_iff] at h
    obtain ⟨⟨hcrlf, hpair⟩, hcs⟩ := h
    have ihcs := ih hcs
    constructor
    · rw [collapseAux]
      by_cases hc : isCollWS c = true
      · rw [if_pos hc]
        have hcsp : c = ' ' := by
          rw [isCollWS] at hc
          simp only [Bool.or_eq_true_iff, beq_iff_eq] at hc
          rcases hc with (h1 | h1) | h1
          · exact absurd h1 hcrlf.1
          · exact absurd h1 hcrlf.2
          · exact h1
        have hhd : cs.head? ≠ some ' ' := by
          rcases hpair with h1 | h1
          · exact absurd hcsp h1
          · exact h1
        rw [if_neg (by simp), ihcs.2 hhd, hcsp]
      · rw [if_neg hc, ihcs.1]
    · intro hhead
      rw [collapseAux]
      have hc : isCollWS c = false := by
        rw [isCollWS]
        simp only [Bool.or_eq_false_iff, beq_eq_false_iff_ne]
        refine ⟨⟨hcrlf.1, hcrlf.2⟩, ?_⟩
        intro hx
        exact hhead (by rw [hx]; rfl)
      rw [if_neg (by simp [hc]), ihcs.1]

theorem normWS_append {l t : List Char} (h : normWS (l ++ t) = true) : normWS l = true := by
  induction l with
  | nil => rfl
  | cons c cs ih =>
    rw [List.cons_append, normWS] at h
    rw [normWS]
    simp only [Bool.and_eq_true_iff] at h ⊢
    refine ⟨⟨h.1.1, ?_⟩, ih h.2⟩
    cases cs with
    | nil => simp
    | cons d ds =>
      have h2 := h.1.2
      simp only [List.cons_append, List.head?_cons] at h2
      simpa using h2

theorem normWS_of_isPrefix {l₁ l₂ : List Char} (hp : l₁ <+: l₂)
    (h : normWS l₂ = true) : normWS l₁ = true := by
  rcases hp with ⟨t, rfl⟩
  exact normWS_append h

theorem rstripDashSpace_isPrefix (l : List Char) : rstripDashSpace l <+: l :=
  List.rdropWhile_prefix _ _

theorem rstripDashSpace_idem (l : List Char) :
    rstripDashSpace (rstripDashSpace l) = rstripDashSpace l :=
  List.rdropWhile_idempotent _ _

/-- Claim C3 (amended).  `cleanName` is idempotent on every input whose
whitespace-collapsed form contains no occurrence of the substring
`Well` (hence none of `Wellbore` either): for such `x`,
`cleanName (cleanName x) = cleanName x`. -/
theorem claim_C3_amended (x : String)
    (h : hasWell (collapseWS x.data) = false) :
    clean_name (clean_name x) = clean_name x := by
  have hrm : removeWell (collapseWS x.data) = collapseWS x.data := removeWell_eq_self h
  have hx : clean_name x = String.mk (rstripDashSpace (collapseWS x.data)) := by
    rw [clean_name, hrm]
  set d := collapseWS x.data with hd
  set y := rstripDashSpace d with hy
  have hnorm : normWS d = true := normWS_collapseAux _ _
  have hyp : y <+: d := rstripDashSpace_isPrefix d
  have hynorm : normWS y = true := normWS_of_isPrefix hyp hnorm
  have hyfix : collapseWS y = y := (collapseAux_fix y hynorm).1
  have hywell : hasWell y = false := hasWell_of_isPrefix hyp h
  have hyrm : removeWell y = y := removeWell_eq_self hywell
  rw [hx, clean_name]
  show String.mk (rstripDashSpace (removeWell (collapseWS y))) = String.mk y
  rw [hyfix, hyrm, hy, rstripDashSpace_idem]

/-- Claim C3 (counterexample).  `cleanName` is not idempotent as claimed:
on the input `"a Well b"` the first application yields `"a  b"` (the
removal of `Well` creates a new double space), and the second collapses
it to `"a b"`. -/
theorem claim_C3_counterexample :
    clean_name (clean_name "a Well b") ≠ clean_name "a Well b" := by decide

/-- Witness for `claim_C3_amended` at the concrete input `"abc - "`. -/
theorem claim_C3_witness :
    hasWell (collapseWS ("abc - " : String).data) = false ∧
      clean_name (clean_name "abc - ") = clean_name "abc - " :=
  ⟨by decide, claim_C3_amended "abc - " (by decide)⟩

/-- Claim C1 (confirmed).  `parseUnit` on the five reference inputs:
`"0.1 in"` gives `{inch, 0.1}`, `"feet"` gives `{foot, 1.0}`, `"mm"`
gives `{meter, 0.001}`, `"m rkb"` gives `{meter, factor 1.0}` (the SDK
default factor), and `"banana"` gives `null`. -/
theorem claim_C1 :
    parse_unit "0.1 in" = some { unit := .inch, factor := some (1/10) } ∧
      parse_unit "feet" = some { unit := .foot, factor := some 1 } ∧
      parse_unit "mm" = some { unit := .meter, factor := some (1/1000) } ∧
      parse_unit "m rkb" = some { unit := .meter, factor := some 1 } ∧
      parse_unit "banana" = none := by decide

theorem factorBad_eq_true_iff (o : Option ℚ) :
    factorBad o = true ↔ ∃ f, o = some f ∧ f ≠ 1 := by
  cases o with
  | none => simp [factorBad]
  | some q =>
    by_cases hq : q = 1
    · subst hq; simp [factorBad]
    · simp [factorBad, hq]

/-- Claim C2 (confirmed).  `parseDistance` returns `null` exactly when an
input is absent, the value does not parse as a float, the unit does not
parse, or the resolved factor is set and differs from `1.0`; otherwise
it returns the unscaled parsed value with the canonical unit.  The four
reference examples hold. -/
theorem claim_C2 (v u : Option String) :
    (parse_distance v u = none ↔
      v = none ∨ u = none ∨
        (∃ s, v = some s ∧ pyFloat? s = none) ∨
        (∃ s, u = some s ∧ parse_unit s = none) ∨
        (∃ s du f, u = some s ∧ parse_unit s = some du ∧ du.factor = some f ∧ f ≠ 1)) ∧
    (∀ vs us fv pu, v = some vs → u = some us → pyFloat? vs = some fv →
      parse_unit us = some pu → (∀ f, pu.factor = some f → f = 1) →
      parse_distance v u = some { value := fv, unit := pu.unit }) ∧
    parse_distance (some "12.5") (some "ft") = some { value := .num (25/2), unit := .foot } ∧
    parse_distance (some "12.5") (some "mm") = none ∧
    parse_distance none (some "ft") = none ∧
    parse_distance (some "abc") (some "ft") = none := by
  refine ⟨?_, ?_, by decide, by decide, by decide, by decide⟩
  · cases v with
    | none => simp [parse_distance]
    | some vs =>
      cases u with
      | none => simp [parse_distance]
      | some us =>
        constructor
        · intro h
          cases hfv : pyFloat? vs with
          | none => exact Or.inr (Or.inr (Or.inl ⟨vs, rfl, hfv⟩))
          | some fv =>
            cases hpu : parse_unit us with
            | none => exact Or.inr (Or.inr (Or.inr (Or.inl ⟨us, rfl, hpu⟩)))
            | some pu =>
              by_cases hb : factorBad pu.factor = true
              · rcases (factorBad_eq_true_iff pu.factor).mp hb with ⟨f, hfac, hf1⟩
                exact Or.inr (Or.inr (Or.inr (Or.inr ⟨us, pu, f, rfl, hpu, hfac, hf1⟩)))
              · exfalso
                have hb' : factorBad pu.factor = false := by simpa using hb
                have hsome : parse_distance (some vs) (some us) =
                    some { value := fv, unit := pu.unit } := by
                  simp [parse_distance, hfv, hpu, hb']
                rw [hsome] at h
                exact Option.noConfusion h
        · rintro (h | h | ⟨s, hs, hfv⟩ | ⟨s, hs, hpu⟩ | ⟨s, du, f, hs, hpu, hfac, hf1⟩)
          · exact Option.noConfusion h
          · exact Option.noConfusion h
          · obtain rfl : vs = s := Option.some_inj.mp hs
            simp [parse_distance, hfv]
          · obtain rfl : us = s := Option.some_inj.mp hs
            cases hfv : pyFloat? vs <;> simp [parse_distance, hfv, hpu]
          · obtain rfl : us = s := Option.some_inj.mp hs
            have hb : factorBad du.factor = true :=
              (factorBad_eq_true_iff du.factor).mpr ⟨f, hfac, hf1⟩
            cases hfv : pyFloat? vs <;> simp [parse_distance, hfv, hpu, hb]
  · intro vs us fv pu hv hu hf hp hfac
    subst hv; subst hu
    have hb : factorBad pu.factor = false := by
      cases hfo : pu.factor with
      | none => simp [factorBad]
      | some f => simp [factorBad, hfac f hfo]
    simp [parse_distance, hf, hp, hb]

/-- Witness for `claim_C2` at `("12.5", "ft")`. -/
theorem claim_C2_witness :
    pyFloat? "12.5" = some (.num (25/2)) ∧
      parse_unit "ft" = some { unit := .foot, factor := some 1 } ∧
      parse_distance (some "12.5") (some "ft") =
        some { value := .num (25/2), unit := .foot } :=
  ⟨by decide, by decide,
    (claim_C2 (some "12.5") (some "ft")).2.1 "12.5" "ft" (PyFloat.num (25/2))
      { unit := .foot, factor := some 1 } rfl rfl (by decide) (by decide)
      (fun f hf => (Option.some_inj.mp hf).symm)⟩

/-- Claim C4 (counterexample).  The claimed equivalence fails in the
direction "non-null → declared unit parses": a column whose external id
is `MD` and whose declared unit metadata is `"M"` yields a non-null
result (the unit is lowercased to `"m"` first), although
`parseUnit("M")` itself returns `null` (the alias table is
case-sensitive). -/
theorem claim_C4_counterexample :
    measured_depth { externalId := some "MD", unit := some "M", description := none } =
        some { column_external_id := "MD", unit := { unit := .meter, factor := some 1 },
               type := "measured depth" } ∧
      parse_unit "M" = none := by decide

/-- Claim C4 (amended).  `measuredDepth(column)` is non-null iff the
column's external id, lowercased, is one of `md`, `tdep`, `depth`,
`dept` and its declared unit metadata — defaulted to the empty string
when absent and lowercased — parses with `parseUnit`; on success the
record carries the (unlowered) external id, the parsed unit, and type
`"measured depth"`. -/
theorem claim_C4_amended (col : SeqColumn) :
    (measured_depth col ≠ none ↔
      pyLowerStr (col.externalId.getD "") ∈ (["md", "tdep", "depth", "dept"] : List String) ∧
        parse_unit (pyLowerStr (col.unit.getD "")) ≠ none) ∧
    (∀ r, measured_depth col = some r →
      r.column_external_id = col.externalId.getD "" ∧
        parse_unit (pyLowerStr (col.unit.getD "")) = some r.unit ∧
        r.type = "measured depth") := by
  constructor
  · by_cases hm : pyLowerStr (col.externalId.getD "") ∈
      (["md", "tdep", "depth", "dept"] : List String)
    · cases hp : parse_unit (pyLowerStr (col.unit.getD "")) with
      | none => simp [measured_depth, hm, hp]
      | some pu => simp [measured_depth, hm, hp]
    · simp [measured_depth, hm]
  · intro r hr
    by_cases hm : pyLowerStr (col.externalId.getD "") ∈
      (["md", "tdep", "depth", "dept"] : List String)
    · cases hp : parse_unit (pyLowerStr (col.unit.getD "")) with
      | none => simp [measured_depth, hm, hp] at hr
      | some pu =>
        simp only [measured_depth, hm, if_true, hp] at hr
        obtain rfl := Option.some_inj.mp hr
        exact ⟨rfl, rfl, rfl⟩
    · simp [measured_depth, hm] at hr

/-- Witness for `claim_C4_amended` at `mdColumn`. -/
theorem claim_C4_witness :
    measured_depth mdColumn = some mdDepthCol ∧
      (mdDepthCol.column_external_id = mdColumn.externalId.getD "" ∧
        parse_unit (pyLowerStr (mdColumn.unit.getD "")) = some mdDepthCol.unit ∧
        mdDepthCol.type = "measured depth") :=
  ⟨by decide, (claim_C4_amended mdColumn).2 mdDepthCol (by decide)⟩

theorem chunksGo_nil {α : Type} (fuel n : Nat) : chunksGo (α := α) fuel [] n = [] := by
  cases fuel <;> rfl

theorem chunksGo_flatten {α : Type} :
    ∀ (fuel : Nat) (l : List α) (n : Nat), 1 ≤ n → l.length ≤ fuel →
      (chunksGo fuel l n).flatten = l := by
  intro fuel
  induction fuel with
  | zero =>
    intro l n _ hl
    have : l = [] := List.length_eq_zero.mp (Nat.le_zero.mp hl)
    subst this
    rfl
  | succ m ih =>
    intro l n hn hl
    cases l with
    | nil => rfl
    | cons x xs =>
      rw [chunksGo, List.flatten_cons,
        ih ((x :: xs).drop n) n hn (by rw [List.length_drop, List.length_cons]; simp at hl; omega),
        List.take_append_drop]

theorem chunksGo_sizes {α : Type} :
    ∀ (fuel : Nat) (l : List α) (n : Nat), 1 ≤ n → l.length ≤ fuel →
      ∀ c ∈ (chunksGo fuel l n).dropLast, c.length = n := by
  intro fuel
  induction fuel with
  | zero =>
    intro l n _ hl
    have : l = [] := List.length_eq_zero.mp (Nat.le_zero.mp hl)
    subst this
    simp [chunksGo_nil]
  | succ m ih =>
    intro l n hn hl
    cases l with
    | nil => simp [chunksGo_nil]
    | cons x xs =>
      rw [chunksGo]
      cases hrest : chunksGo m ((x :: xs).drop n) n with
      | nil => simp
      | cons r rs =>
        intro c hc
        rw [List.dropLast_cons₂] at hc
        rcases List.mem_cons.mp hc with hc1 | hc2
        · subst hc1
          have hne : (x :: xs).drop n ≠ [] := by
            intro hnil
            rw [hnil, chunksGo_nil] at hrest
            exact List.noConfusion hrest
          have hlen : n < (x :: xs).length := by
            by_contra hle
            exact hne (List.drop_eq_nil_of_le (by omega))
          rw [List.length_take]
          omega
        · have := ih ((x :: xs).drop n) n hn
            (by rw [List.length_drop, List.length_cons]; simp at hl; omega)
          rw [hrest] at this
          exact this c hc2

/-- Claim C7 (confirmed).  For every list and chunk size `n ≥ 1`, the
concatenation of `chunks(lst, n)` in order is the original list, and
every chunk except possibly the last has length exactly `n`. -/
theorem claim_C7 {α : Type} (l : List α) (n : Nat) (h : 1 ≤ n) :
    (chunks l n).flatten = l ∧ ∀ c ∈ (chunks l n).dropLast, c.length = n :=
  ⟨chunksGo_flatten l.length l n h le_rfl, chunksGo_sizes l.length l n h le_rfl⟩

/-- Witness for `claim_C7` at `[1, 2, 3, 4, 5]` with chunk size `2`. -/
theorem claim_C7_witness :
    1 ≤ 2 ∧
      ((chunks [1, 2, 3, 4, 5] 2).flatten = [1, 2, 3, 4, 5] ∧
        ∀ c ∈ (chunks [1, 2, 3, 4, 5] 2).dropLast, c.length = 2) :=
  ⟨by decide, claim_C7 [1, 2, 3, 4, 5] 2 (by decide)⟩

theorem rowMap_eq_some_iff (f : ℚ) (r : TrajRowIn) (out : TrajectoryIngestionRow) :
    rowMap f r = some out ↔
      ∃ m i a, r.md = some m ∧ m ≠ 0 ∧ r.inc = some i ∧ r.azim = some a ∧ a ≠ 0 ∧
        out = { measured_depth := m * f, inclination := i, azimuth := pymod360 a } := by
  obtain ⟨md, inc, azim⟩ := r
  cases md with
  | none => simp [rowMap, truthy]
  | some m =>
    by_cases hm : m = 0
    · subst hm
      simp [rowMap, truthy]
    · cases azim with
      | none => simp [rowMap, truthy, hm]
      | some a =>
        by_cases ha : a = 0
        · subst ha
          simp [rowMap, truthy, hm]
        · cases inc with
          | none => simp [rowMap, truthy, hm, ha]
          | some i =>
            simp only [rowMap, truthy, hm, ha, if_false, if_true, Option.getD_some]
            constructor
            · intro h
              exact ⟨m, i, a, rfl, hm, rfl, rfl, ha, (Option.some_inj.mp h).symm⟩
            · rintro ⟨m', i', a', hm', _, hi', ha', _, rfl⟩
              rw [Option.some_inj] at hm' hi' ha'
              subst hm'; subst hi'; subst ha'
              rfl

/-- Claim C6 (confirmed).  In trajectory mapping every kept row's azimuth
is the input azimuth modulo 360 (`370 ↦ 10`); every row whose
measured-depth, inclination, or azimuth is absent is dropped; and when
every row is dropped no trajectory ingestion record is produced. -/
theorem claim_C6 (wb : String) (f : ℚ) (data : List TrajRowIn) :
    (∀ r ∈ data, ∀ out, rowMap f r = some out →
        ∃ a, r.azim = some a ∧ out.azimuth = pymod360 a) ∧
    (∀ r ∈ data, (r.md = none ∨ r.inc = none ∨ r.azim = none) → rowMap f r = none) ∧
    (∀ ti, create_trajectory_ingestion wb f data = some ti →
        ∀ row ∈ ti.rows, ∃ r ∈ data, rowMap f r = some row) ∧
    ((∀ r ∈ data, rowMap f r = none) → create_trajectory_ingestion wb f data = none) ∧
    pymod360 370 = 10 := by
  refine ⟨?_, ?_, ?_, ?_, by decide⟩
  · intro r _ out hout
    rcases (rowMap_eq_some_iff f r out).mp hout with ⟨m, i, a, _, _, _, haz, _, rfl⟩
    exact ⟨a, haz, rfl⟩
  · intro r _ habs
    cases hout : rowMap f r with
    | none => rfl
    | some out =>
      exfalso
      rcases (rowMap_eq_some_iff f r out).mp hout with ⟨m, i, a, hmd, _, hinc, haz, _, rfl⟩
      rcases habs with h | h | h
      · rw [h] at hmd; exact Option.noConfusion hmd
      · rw [h] at hinc; exact Option.noConfusion hinc
      · rw [h] at haz; exact Option.noConfusion haz
  · intro ti hti row hrow
    rw [create_trajectory_ingestion] at hti
    by_cases he : (data.filterMap (rowMap f)).isEmpty
    · rw [if_pos he] at hti; exact Option.noConfusion hti
    · rw [if_neg he] at hti
      obtain rfl := Option.some_inj.mp hti
      exact List.mem_filterMap.mp hrow
  · intro hall
    rw [create_trajectory_ingestion]
    have : data.filterMap (rowMap f) = [] := by
      rw [List.filterMap_eq_nil_iff]
      exact hall
    simp [this]

/-- Witness for `claim_C6`: a single row with an absent measured depth
is dropped, so no trajectory record is produced. -/
theorem claim_C6_witness :
    (∀ r ∈ ([{ md := none, inc := some 1, azim := some 10 }] : List TrajRowIn),
        rowMap 1 r = none) ∧
      create_trajectory_ingestion "wb" 1 [{ md := none, inc := some 1, azim := some 10 }] =
        none :=
  ⟨by decide,
    (claim_C6 "wb" 1 [{ md := none, inc := some 1, azim := some 10 }]).2.2.2.1 (by decide)⟩

/-- Claim C9 (confirmed).  A trajectory row whose measured depth or
azimuth is present but exactly `0` is dropped (Python truthiness),
while an azimuth of `360` is kept and normalized to `0`. -/
theorem claim_C9 (f : ℚ) (r : TrajRowIn) :
    (r.md = some 0 → rowMap f r = none) ∧
    (r.azim = some 0 → rowMap f r = none) ∧
    (∀ m i, m ≠ 0 → r.md = some m → r.inc = some i → r.azim = some 360 →
      rowMap f r = some { measured_depth := m * f, inclination := i, azimuth := 0 }) := by
  refine ⟨?_, ?_, ?_⟩
  · intro h
    rw [rowMap, h]
    simp [truthy]
  · intro h
    rw [rowMap, h]
    have h0 : truthy (some (0 : ℚ)) = false := by decide
    rw [h0]
    simp only [Bool.false_eq_true, if_false]
    cases (if truthy r.md = true then some (r.md.getD 0 * f) else none) <;>
      cases r.inc <;> rfl
  · intro m i hm hmd hinc haz
    rw [rowMap, hmd, hinc, haz]
    have h360 : pymod360 360 = 0 := by decide
    simp [truthy, hm, h360]

/-- Witness for `claim_C9`: azimuth `360` is kept with azimuth `0`. -/
theorem claim_C9_witness :
    rowMap 1 { md := some 1, inc := some 2, azim := some 360 } =
      some { measured_depth := 1 * 1, inclination := 2, azimuth := 0 } :=
  (claim_C9 1 { md := some 1, inc := some 2, azim := some 360 }).2.2 1 2
    (by decide) rfl rfl rfl

theorem edmProcessWell_ok {datums wellbore_assets : List Asset} {w : Asset}
    {wi : WellIngestionRec} {wbis : List EdmWellboreIngestion}
    (h : edmProcessWell datums wellbore_assets w = Except.ok (wi, wbis)) :
    wi.matching_id = clean_name w.name ∧ wi.source.asset_external_id = w.external_id := by
  unfold edmProcessWell at h
  cases h1 : requireFloat w.metadata "GEO_LONGITUDE" with
  | error e => rw [h1] at h; simp [Bind.bind, Except.bind] at h
  | ok lon =>
    rw [h1] at h
    simp only [Bind.bind, Except.bind] at h
    cases h2 : requireFloat w.metadata "GEO_LATITUDE" with
    | error e => rw [h2] at h; simp [Except.bind] at h
    | ok lat =>
      rw [h2] at h
      simp only [Except.bind, Except.ok.injEq, Prod.mk.injEq] at h
      obtain ⟨hwi, _⟩ := h
      rw [← hwi]
      exact ⟨rfl, rfl⟩

theorem osduProcessWell_ok {wellbore_assets : List Asset} {st st' : Option Datum} {w : Asset}
    {wi : WellIngestionRec} {wbis : List OsduWellboreIngestion}
    (h : osduProcessWell wellbore_assets st w = Except.ok (st', wi, wbis)) :
    wi.matching_id = clean_name w.name := by
  unfold osduProcessWell at h
  cases h1 : requireFloat w.metadata "Wgs84SpatialLocationX" with
  | error e => rw [h1] at h; simp [Bind.bind, Except.bind] at h
  | ok lon =>
    rw [h1] at h
    simp only [Bind.bind, Except.bind] at h
    cases h2 : requireFloat w.metadata "Wgs84SpatialLocationY" with
    | error e => rw [h2] at h; simp [Except.bind] at h
    | ok lat =>
      rw [h2] at h
      simp only [Except.bind] at h
      cases h3 : osduWellboreLoop st w.external_id
          (wellboresOf wellbore_assets w.external_id) with
      | error e => rw [h3] at h; simp [Except.bind] at h
      | ok p =>
        obtain ⟨st1, wbis1⟩ := p
        rw [h3] at h
        simp only [Except.bind, Except.ok.injEq, Prod.mk.injEq] at h
        obtain ⟨_, hwi, _⟩ := h
        rw [← hwi]

theorem osduGo_matching (wellbore_assets : List Asset) :
    ∀ (ws : List Asset) (st : Option Datum) (outW : List WellIngestionRec)
      (outB : List OsduWellboreIngestion),
      osduGo wellbore_assets st ws = Except.ok (outW, outB) →
      outW.map (fun r => r.matching_id) = ws.map (fun w => clean_name w.name) := by
  intro ws
  induction ws with
  | nil =>
    intro st outW outB h
    simp only [osduGo, Except.ok.injEq, Prod.mk.injEq] at h
    rw [← h.1]
    rfl
  | cons w ws ih =>
    intro st outW outB h
    rw [osduGo] at h
    cases hpw : osduProcessWell wellbore_assets st w with
    | error e => rw [hpw] at h; simp [Bind.bind, Except.bind] at h
    | ok p =>
      obtain ⟨st', wi, wbis⟩ := p
      rw [hpw] at h
      simp only [Bind.bind, Except.bind] at h
      cases hrec : osduGo wellbore_assets st' ws with
      | error e => rw [hrec] at h; simp [Except.bind] at h
      | ok q =>
        obtain ⟨wis, wbisRest⟩ := q
        rw [hrec] at h
        simp only [Except.bind, Except.ok.injEq, Prod.mk.injEq] at h
        obtain ⟨houtW, _⟩ := h
        rw [← houtW, List.map_cons, List.map_cons, osduProcessWell_ok hpw,
          ih st' wis wbisRest hrec]

theorem edmGo_spec (datums wellbore_assets : List Asset) :
    ∀ (ws : List Asset) (seen : List String) (outW : List WellIngestionRec)
      (outB : List EdmWellboreIngestion),
      edmGo datums wellbore_assets seen ws = Except.ok (outW, outB) →
      ∀ c : String,
        (c ∈ seen → outW.countP (fun r => r.matching_id == c) = 0) ∧
        (c ∉ seen →
          outW.countP (fun r => r.matching_id == c) =
            min 1 (ws.countP (fun w => clean_name w.name == c)) ∧
          (outW.find? (fun r => r.matching_id == c)).map
              (fun r => r.source.asset_external_id) =
            (ws.find? (fun w => clean_name w.name == c)).map (fun w => w.external_id)) := by
  intro ws
  induction ws with
  | nil =>
    intro seen outW outB h c
    simp only [edmGo, Except.ok.injEq, Prod.mk.injEq] at h
    obtain ⟨houtW, _⟩ := h
    rw [← houtW]
    exact ⟨fun _ => rfl, fun _ => ⟨rfl, rfl⟩⟩
  | cons w ws ih =>
    intro seen outW outB h c
    rw [edmGo] at h
    cases hpw : edmProcessWell datums wellbore_assets w with
    | error e => rw [hpw] at h; simp [Bind.bind, Except.bind] at h
    | ok p =>
      obtain ⟨wi, wbis⟩ := p
      rw [hpw] at h
      simp only [Bind.bind, Except.bind] at h
      have hmid : wi.matching_id = clean_name w.name := (edmProcessWell_ok hpw).1
      have hsrc : wi.source.asset_external_id = w.external_id := (edmProcessWell_ok hpw).2
      by_cases hseen : wi.matching_id ∈ seen
      · rw [if_pos hseen] at h
        have IH := ih seen outW outB h c
        refine ⟨IH.1, fun hc => ?_⟩
        have hne : (clean_name w.name == c) = false := by
          refine beq_eq_false_iff_ne.mpr (fun hcc => hc ?_)
          rw [← hcc, ← hmid]
          exact hseen
        obtain ⟨hcount, hfind⟩ := IH.2 hc
        refine ⟨?_, ?_⟩
        · rw [hcount, List.countP_cons, hne]
          simp
        · rw [hfind, List.find?_cons_of_neg _ (by simp [hne])]
      · rw [if_neg hseen] at h
        cases hrec : edmGo datums wellbore_assets (wi.matching_id :: seen) ws with
        | error e => rw [hrec] at h; simp [Except.bind] at h
        | ok q =>
          obtain ⟨wis, wbisRest⟩ := q
          rw [hrec] at h
          simp only [Except.bind, Except.ok.injEq, Prod.mk.injEq] at h
          obtain ⟨houtW, _⟩ := h
          have IH := ih (wi.matching_id :: seen) wis wbisRest hrec c
          constructor
          · intro hc
            have hcne : (wi.matching_id == c) = false :=
              beq_eq_false_iff_ne.mpr (fun he => hseen (he ▸ hc))
            rw [← houtW, List.countP_cons, hcne, IH.1 (List.mem_cons_of_mem _ hc)]
            simp
          · intro hc
            by_cases hceq : c = wi.matching_id
            · subst hceq
              have hz : wis.countP (fun r => r.matching_id == wi.matching_id) = 0 :=
                IH.1 (List.mem_cons_self _ _)
              have hwname : (clean_name w.name == wi.matching_id) = true := by
                rw [← hmid]; exact beq_self_eq_true _
              refine ⟨?_, ?_⟩
              · rw [← houtW, List.countP_cons, hz, List.countP_cons, hwname]
                simp [Nat.min_def]
              · rw [← houtW]
                have hfw : (wi :: wis).find? (fun r => r.matching_id == wi.matching_id) =
                    some wi := List.find?_cons_of_pos _ (beq_self_eq_true _)
                have hfw2 : (w :: ws).find? (fun v => clean_name v.name == wi.matching_id) =
                    some w := List.find?_cons_of_pos _ hwname
                rw [hfw, hfw2]
                simp [hsrc]
            · have hcne : (wi.matching_id == c) = false :=
                beq_eq_false_iff_ne.mpr (fun he => hceq he.symm)
              have hwname : (clean_name w.name == c) = false := by
                rw [← hmid]; exact hcne
              have hc' : c ∉ wi.matching_id :: seen := by
                intro hmem
                rcases List.mem_cons.mp hmem with h1 | h1
                · exact hceq h1
                · exact hc h1
              obtain ⟨hcount, hfind⟩ := IH.2 hc'
              refine ⟨?_, ?_⟩
              · rw [← houtW, List.countP_cons, hcne, hcount, List.countP_cons, hwname]
                simp
              · rw [← houtW, List.find?_cons_of_neg _ (by simp [hcne]), hfind,
                  List.find?_cons_of_neg _ (by simp [hwname])]

/-- Claim C5 (counterexample).  The OSDU well mapper does not
deduplicate: two input wells with the same cleaned name `A` produce two
outbound well records (both with matching id `A`), refuting "exactly
one well record is emitted". -/
theorem claim_C5_counterexample :
    clean_name osduWellW1.name = clean_name osduWellW2.name ∧
      (ingest_wells_and_wellbores_osdu [osduWellW1, osduWellW2] []).toOption.map
          (fun p => p.1.map (fun r => r.matching_id)) = some ["A", "A"] := by decide

/-- Claim C5 (amended).  The EDM well mapper deduplicates by cleaned name:
whenever it succeeds and some input well cleans to `c`, exactly one
outbound record with matching id `c` is emitted, and it carries the
asset external id of the first such input well.  The OSDU well mapper
performs no deduplication: it emits one record per input well, in
order. -/
theorem claim_C5_amended :
    (∀ (wells wellbore_assets datums : List Asset) outW outB (c : String),
      ingest_wells_and_wellbores_edm wells wellbore_assets datums = Except.ok (outW, outB) →
      (∃ w ∈ wells, clean_name w.name = c) →
      outW.countP (fun r => r.matching_id == c) = 1 ∧
        (outW.find? (fun r => r.matching_id == c)).map
            (fun r => r.source.asset_external_id) =
          (wells.find? (fun w => clean_name w.name == c)).map (fun w => w.external_id)) ∧
    (∀ (wells wellbore_assets : List Asset) outW outB,
      ingest_wells_and_wellbores_osdu wells wellbore_assets = Except.ok (outW, outB) →
      outW.map (fun r => r.matching_id) = wells.map (fun w => clean_name w.name)) := by
  constructor
  · intro wells wellbore_assets datums outW outB c h hex
    have hspec := (edmGo_spec datums wellbore_assets wells [] outW outB h c).2
      (by simp)
    obtain ⟨hcount, hfind⟩ := hspec
    have hpos : 0 < wells.countP (fun w => clean_name w.name == c) := by
      rw [List.countP_pos_iff]
      obtain ⟨w, hw, hcw⟩ := hex
      exact ⟨w, hw, by simp [hcw]⟩
    refine ⟨?_, hfind⟩
    rw [hcount]
    omega
  · intro wells wellbore_assets outW outB h
    exact osduGo_matching wellbore_assets wells none outW outB h

/-- Witness for `claim_C5_amended`: two EDM wells cleaning to `A` yield
exactly one record, carrying the first well's external id `E1`. -/
theorem claim_C5_witness :
    (ingest_wells_and_wellbores_edm [edmWellE1, edmWellE2] [] [] =
        Except.ok (edmDupOut, []) ∧
      (∃ w ∈ [edmWellE1, edmWellE2], clean_name w.name = "A")) ∧
    (edmDupOut.countP (fun r => r.matching_id == "A") = 1 ∧
      (edmDupOut.find? (fun r => r.matching_id == "A")).map
          (fun r => r.source.asset_external_id) =
        ([edmWellE1, edmWellE2].find? (fun w => clean_name w.name == "A")).map
          (fun w => w.external_id)) :=
  ⟨⟨by decide, by decide⟩,
    claim_C5_amended.1 [edmWellE1, edmWellE2] [] [] edmDupOut [] "A" (by decide) (by decide)⟩

/-- Claim C8 (code bug).  Contrary to the claim that only missing
longitude/latitude are fatal, the OSDU mapper aborts with an
unbound-local error when the first processed wellbore lacks the datum
metadata keys (the `datum` local is only assigned when both keys are
present); the EDM mapper, which re-initializes its `datum` to `None`
per wellbore, handles the analogous input without error. -/
theorem claim_C8_theorem :
    ingest_wells_and_wellbores_osdu [osduWellW1] [osduWbNoDatum] =
        Except.error (PyErr.unboundLocal "datum") ∧
      metaGet osduWbNoDatum.metadata "VerticalMeasurement_Measured_From" = none ∧
      metaGet osduWbNoDatum.metadata "VerticalMeasurementType_Measured_From" = none ∧
      (ingest_wells_and_wellbores_edm [edmWellE1] [edmWbNoKeys] []).toOption.isSome = true := by
  decide

/-- Claim C10 (confirmed).  In the OSDU wellbore mapper the `datum` local
is assigned only when both datum keys are present; a wellbore lacking
either key receives the datum computed for an earlier wellbore of the
run (stale carry-over) rather than `null`, and when no earlier wellbore
assigned one the mapper fails with an unbound-local error. -/
theorem claim_C10 (st : Option Datum) (wid : String) (wb : Asset) :
    ((metaGet wb.metadata "VerticalMeasurement_Measured_From" = none ∨
        metaGet wb.metadata "VerticalMeasurementType_Measured_From" = none) →
      (st = none →
        osduProcessWellbore st wid wb = Except.error (PyErr.unboundLocal "datum")) ∧
      (∀ d, st = some d →
        ∃ wbi, osduProcessWellbore st wid wb = Except.ok (some d, wbi) ∧ wbi.datum = d)) ∧
    (∀ elev ref v,
      metaGet wb.metadata "VerticalMeasurement_Measured_From" = some elev →
      metaGet wb.metadata "VerticalMeasurementType_Measured_From" = some ref →
      pyFloat? elev = some v →
      ∃ wbi, osduProcessWellbore st wid wb =
          Except.ok (some { value := v, unit := DistanceUnitEnum.meter, reference := ref },
            wbi) ∧
        wbi.datum = { value := v, unit := DistanceUnitEnum.meter, reference := ref }) := by
  constructor
  · intro hmiss
    constructor
    · intro hst
      subst hst
      unfold osduProcessWellbore
      rcases hmiss with h | h
      · rw [h]
        cases hR : metaGet wb.metadata "VerticalMeasurementType_Measured_From" <;>
          simp [Bind.bind, Except.bind]
      · rw [h]
        cases hE : metaGet wb.metadata "VerticalMeasurement_Measured_From" <;>
          simp [Bind.bind, Except.bind]
    · intro d hst
      subst hst
      refine ⟨⟨clean_name wb.name, clean_name wb.name, clean_name wb.external_id, wid,
        ⟨wb.external_id, "OSDU"⟩, d⟩, ?_, rfl⟩
      unfold osduProcessWellbore
      rcases hmiss with h | h
      · rw [h]
        cases hR : metaGet wb.metadata "VerticalMeasurementType_Measured_From" <;>
          simp [Bind.bind, Except.bind]
      · rw [h]
        cases hE : metaGet wb.metadata "VerticalMeasurement_Measured_From" <;>
          simp [Bind.bind, Except.bind]
  · intro elev ref v hE hR hv
    refine ⟨⟨clean_name wb.name, clean_name wb.name, clean_name wb.external_id, wid,
      ⟨wb.external_id, "OSDU"⟩, ⟨v, DistanceUnitEnum.meter, ref⟩⟩, ?_, rfl⟩
    unfold osduProcessWellbore
    rw [hE, hR]
    simp [Bind.bind, Except.bind, pyFloatE, hv]

/-- Witness for `claim_C10`: a wellbore with no datum keys, processed
while a datum from an earlier wellbore is bound, reuses that stale
datum. -/
theorem claim_C10_witness :
    (metaGet osduWbNoDatum.metadata "VerticalMeasurement_Measured_From" = none ∨
      metaGet osduWbNoDatum.metadata "VerticalMeasurementType_Measured_From" = none) ∧
    (∃ wbi, osduProcessWellbore (some sampleDatum) "W1" osduWbNoDatum =
        Except.ok (some sampleDatum, wbi) ∧ wbi.datum = sampleDatum) :=
  ⟨Or.inl (by decide),
    ((claim_C10 (some sampleDatum) "W1" osduWbNoDatum).1 (Or.inl (by decide))).2
      sampleDatum rfl⟩

end WellIngestion
